import Mathlib

/-!
Verification of the snakemake `JobScheduler` (scheduler.py).

Shallow embedding of `snakemake/scheduler.py`:

* `knapCell` embeds the dynamic-programming table `K` built by
  `JobScheduler._thread_based_selector` (`K[i][j]` = best thread-sum using the
  first `i` candidates under capacity `j`).
* `knapWalk` embeds the backward reconstruction loop of the same method and
  `threadBasedSelector` the whole method, returning the selected candidate
  indices (the Python code returns the corresponding set of job objects).
* `pySlice` embeds Python's `jobs[:c]` slicing for a possibly negative `c`,
  and `fallbackSelector` embeds `JobScheduler._selector`.
* `SchedState`, `loopIter`, `finishJob`, `errorCallback`, `Step` and `Reach`
  embed the scheduling loop of `JobScheduler.schedule` together with the
  `_finished` / `_error` callbacks as a transition system.
-/

/-- A job as consumed by the scheduler: identity, opaque rule label,
thread requirement, and the `needrun` flag. -/
structure Job where
  id : Nat
  rule : Nat
  threads : Nat
  needrun : Bool
deriving DecidableEq, Repr

/-- Placeholder job used to totalize list indexing (its thread count is 0 and
it is never produced by in-bounds accesses). -/
def dummyJob : Job := ⟨0, 0, 0, false⟩

/-- Cell `K[i][j]` of the knapsack table built by
`JobScheduler._thread_based_selector`: with `t = jobs[i-1].threads`,
`K[i][j] = K[i-1][j]` if `t > j`, else `max (K[i-1][j]) (t + K[i-1][j-t])`,
and `K[0][j] = K[i][0] = 0`.  `ts` is the list of candidate thread counts. -/
def knapCell (ts : List Nat) : Nat → Nat → Nat
  | 0, _ => 0
  | i + 1, j =>
    if ts.getD i 0 > j then knapCell ts i j
    else max (knapCell ts i j) (ts.getD i 0 + knapCell ts i (j - ts.getD i 0))

/-- The backward reconstruction loop of `_thread_based_selector`: starting at
`i = n, j = budget`, include candidate `i-1` whenever `K[i][j] ≠ K[i-1][j]`,
reducing `j` by its thread count; returns the list of included (0-based)
candidate indices in decreasing order. -/
def knapWalk (ts : List Nat) : Nat → Nat → List Nat
  | 0, _ => []
  | i + 1, j =>
    if knapCell ts (i + 1) j ≠ knapCell ts i j
    then i :: knapWalk ts i (j - ts.getD i 0)
    else knapWalk ts i j

/-- `JobScheduler._thread_based_selector`: 0-1 knapsack over the thread
counts `ts` with capacity `budget`; returns the selected candidate indices. -/
def threadBasedSelector (ts : List Nat) (budget : Nat) : List Nat :=
  knapWalk ts ts.length budget

/-- Python's `l[:c]` for an integer `c`: a nonnegative `c` keeps the first
`c` elements; a negative `c = -k` drops the last `k` elements. -/
def pySlice (l : List Job) (c : Int) : List Job :=
  if 0 ≤ c then l.take c.toNat else l.take (l.length - (-c).toNat)

/-- `JobScheduler._selector`, the fallback selector used in dry-run, touch
and cluster modes: `return jobs[:self._cores]`. -/
def fallbackSelector (jobs : List Job) (cores : Int) : List Job :=
  pySlice jobs cores

/-- Total thread requirement of a list of jobs. -/
def totalThreads (l : List Job) : Nat :=
  (l.map (fun j => j.threads)).sum

/-- Thread requirement counted only for jobs with `needrun` set (the budget
refund rule of `JobScheduler._finished`). -/
def needrunSum (l : List Job) : Nat :=
  (l.map (fun j => if j.needrun then j.threads else 0)).sum

/-- State of a `JobScheduler` together with the bookkeeping needed to observe
its behaviour: `cores` is `self._cores` (a Python int, so possibly negative),
`ready` models `dag.ready_jobs`, `running` the dispatched-but-uncompleted
jobs, `dagFinished` the sequence of `dag.finish` notifications, and `wake`
the `_open_jobs` event.  `useKnapsack` records whether the CPU executor was
chosen at construction (then `_selector = _thread_based_selector`). -/
structure SchedState where
  maxcores : Nat
  dryrun : Bool
  useKnapsack : Bool
  cores : Int
  ready : List Job
  running : List Job
  finished_jobs : Nat
  errors : Bool
  wake : Bool
  dagFinished : List Nat
deriving DecidableEq, Repr

/-- `JobScheduler.__init__`: full budget, no running jobs, no errors, and the
`_open_jobs` event initially set. -/
def initState (maxcores : Nat) (dryrun useKnapsack : Bool) (ready : List Job) :
    SchedState :=
  { maxcores := maxcores, dryrun := dryrun, useKnapsack := useKnapsack,
    cores := maxcores, ready := ready, running := [], finished_jobs := 0,
    errors := false, wake := true, dagFinished := [] }

/-- The in-place clamp of `schedule`: `if job.threads > self.maxcores:
job.threads = self.maxcores`. -/
def clampJob (m : Nat) (j : Job) : Job :=
  if j.threads > m then { j with threads := m } else j

/-- The `needrun` list built by one iteration of `schedule`: the ready jobs
with `needrun` set, their thread counts clamped to `maxcores`. -/
def needrunCandidates (s : SchedState) : List Job :=
  (s.ready.filter (fun j => j.needrun)).map (clampJob s.maxcores)

/-- Number of clamp warnings emitted by one iteration of `schedule`
(`logger.warn` is skipped whenever `self.dryrun` holds). -/
def clampWarnings (s : SchedState) : Nat :=
  if s.dryrun then 0
  else (s.ready.filter (fun j => j.needrun && decide (j.threads > s.maxcores))).length

/-- `run = self._selector(needrun)`: the knapsack selector when the CPU
executor was chosen, Python slicing `jobs[:self._cores]` otherwise.  In
knapsack mode `self._cores` is nonnegative in every reachable state (proved
below), so taking `toNat` for the capacity is faithful. -/
def runSelection (s : SchedState) (cands : List Job) : List Job :=
  if s.useKnapsack then
    (threadBasedSelector (cands.map (fun j => j.threads)) s.cores.toNat).map
      (fun i => cands.getD i dummyJob)
  else
    fallbackSelector cands s.cores

/-- Observable outcome of one iteration of the `while True` loop of
`JobScheduler.schedule` after the wake event fired: whether
`self._executor.shutdown()` was called, the dispatched jobs, the number of
clamp warnings, the return value of `schedule` if it returned, and the
successor state. -/
structure IterOutcome where
  shutdownRequested : Bool
  dispatched : List Job
  warnings : Nat
  result : Option Bool
  next : SchedState
deriving DecidableEq, Repr

/-- One iteration of the loop body of `JobScheduler.schedule` (lines 39-66):
clear the event; if `self._errors`, shut down and return `False`; build the
clamped `needrun` list; if empty, shut down and return `True`; otherwise
dispatch `self._selector(needrun)` and deduct its total thread count from
`self._cores`.  The clamp mutates the job objects held by the dag, so the
`ready` list is updated in place; dispatched jobs are handed to the executor
and recorded in `running`. -/
def loopIter (s : SchedState) : IterOutcome :=
  if s.errors then
    { shutdownRequested := true, dispatched := [], warnings := 0,
      result := some false, next := { s with wake := false } }
  else
    let cands := needrunCandidates s
    let w := clampWarnings s
    if cands.isEmpty then
      { shutdownRequested := true, dispatched := [], warnings := w,
        result := some true, next := { s with wake := false } }
    else
      let run := runSelection s cands
      { shutdownRequested := false, dispatched := run, warnings := w,
        result := none,
        next := { s with
          wake := false,
          cores := s.cores - (totalThreads run : Int),
          running := s.running ++ run,
          ready := s.ready.map
            (fun j => if j.needrun then clampJob s.maxcores j else j) } }

/-- `JobScheduler._finished`: refund the budget when the job needed running,
bump the finished counter, notify the dag, and set the wake event. -/
def finishJob (s : SchedState) (j : Job) : SchedState :=
  { s with
    cores := s.cores + (if j.needrun then (j.threads : Int) else 0),
    finished_jobs := s.finished_jobs + 1,
    running := s.running.erase j,
    dagFinished := s.dagFinished ++ [j.id],
    wake := true }

/-- `JobScheduler._error`: set the error flag and the wake event (the
assignment `self._jobs = set()` touches an attribute read nowhere else). -/
def errorCallback (s : SchedState) : SchedState :=
  { s with errors := true, wake := true }

/-- Transitions of the scheduler: a loop iteration that dispatched (the
returning iterations are terminal), a completion callback for a running job,
an error callback, and an update of `dag.ready_jobs` by the external
dependency graph. -/
inductive Step : SchedState → SchedState → Prop
  | loop {s : SchedState} : s.wake = true → (loopIter s).result = none →
      Step s (loopIter s).next
  | finish {s : SchedState} (j : Job) : j ∈ s.running → Step s (finishJob s j)
  | error {s : SchedState} : Step s (errorCallback s)
  | graph {s : SchedState} (r : List Job) : Step s { s with ready := r }

/-- States reachable from some freshly constructed scheduler. -/
inductive Reach : SchedState → Prop
  | init (maxcores : Nat) (dryrun useKnapsack : Bool) (ready : List Job) :
      Reach (initState maxcores dryrun useKnapsack ready)
  | step {s t : SchedState} : Reach s → Step s t → Reach t

/-- Written from the spec's own words (§4.2): reconstruct the chosen subset
by walking backward from cell `(n, budget)`, including job `i` whenever
`cell(i, j) ≠ cell(i-1, j)` and reducing the remaining capacity by that
job's requirement; rendered as a left fold over the rows `n, ..., 1`
carrying the pair (remaining capacity, chosen indices). -/
def specBacktrack (ts : List Nat) (budget : Nat) : List Nat :=
  ((List.range ts.length).reverse.foldl
    (fun (st : Nat × List Nat) i =>
      if knapCell ts (i + 1) st.1 ≠ knapCell ts i st.1
      then (st.1 - ts.getD i 0, st.2 ++ [i])
      else st)
    (budget, [])).2

/-- Written from the spec's own words (§4.2, fallback selector): take ready
jobs in listed order until the budget is exhausted, i.e. the longest order-
preserving initial segment whose total thread requirement fits the budget. -/
def specOrderedTake : List Job → Nat → List Job
  | [], _ => []
  | j :: rest, b =>
    if j.threads ≤ b then j :: specOrderedTake rest (b - j.threads) else []

/-- A freshly constructed scheduler in a fallback (non-CPU-executor) mode
with two ready two-thread jobs and `maxcores = 2`: one dispatch iteration
drives `_cores` to `-2`. -/
def overcommitInit : SchedState :=
  initState 2 false false [⟨0, 0, 2, true⟩, ⟨1, 1, 2, true⟩]

/-- The state after the first loop iteration of `overcommitInit`. -/
def overcommitState : SchedState :=
  (loopIter overcommitInit).next

/-- The inductive invariant of the scheduler: the remaining-core counter
accounts exactly for the dispatched-but-uncompleted jobs, every running job
needed to run, and in CPU-executor (knapsack) mode the counter is
nonnegative. -/
def SchedInv (s : SchedState) : Prop :=
  s.cores = (s.maxcores : Int) - (needrunSum s.running : Int) ∧
  (∀ j ∈ s.running, j.needrun = true) ∧
  (s.useKnapsack = true → 0 ≤ s.cores)

/-! ## Knapsack table lemmas -/

/-- Every table cell is bounded by its capacity column. -/
theorem knapCell_le (ts : List Nat) : ∀ i j, knapCell ts i j ≤ j := by
  intro i
  induction i with
  | zero => intro j; simp [knapCell]
  | succ i ih =>
    intro j
    simp only [knapCell]
    split
    · exact ih j
    · next h =>
      refine max_le (ih j) ?_
      have h2 := ih (j - ts.getD i 0)
      omega

/-- Cells do not decrease when one more candidate becomes available. -/
theorem knapCell_mono (ts : List Nat) (i j : Nat) :
    knapCell ts i j ≤ knapCell ts (i + 1) j := by
  simp only [knapCell]
  split
  · exact le_rfl
  · exact le_max_left _ _

/-- The zero-capacity column of the table is zero. -/
theorem knapCell_zero (ts : List Nat) : ∀ i, knapCell ts i 0 = 0 := by
  intro i
  induction i with
  | zero => rfl
  | succ i ih =>
    simp only [knapCell]
    split
    · exact ih
    · next h =>
      have ht : ts.getD i 0 = 0 := by omega
      rw [ht]
      simp [ih]

/-- Indices produced by the reconstruction walk are in range. -/
theorem knapWalk_lt (ts : List Nat) :
    ∀ i j, ∀ x ∈ knapWalk ts i j, x < i := by
  intro i
  induction i with
  | zero => intro j x hx; simp [knapWalk] at hx
  | succ i ih =>
    intro j x hx
    simp only [knapWalk] at hx
    split at hx
    · rcases List.mem_cons.mp hx with h | h
      · omega
      · exact Nat.lt_succ_of_lt (ih _ x h)
    · exact Nat.lt_succ_of_lt (ih j x hx)

/-- When a cell differs from the cell above it, the include branch of the
recurrence was taken. -/
theorem knapCell_of_ne (ts : List Nat) (i j : Nat)
    (h : knapCell ts (i + 1) j ≠ knapCell ts i j) :
    ts.getD i 0 ≤ j ∧
      knapCell ts (i + 1) j = ts.getD i 0 + knapCell ts i (j - ts.getD i 0) := by
  by_cases hgt : ts.getD i 0 > j
  · exfalso
    apply h
    simp only [knapCell]
    rw [if_pos hgt]
  · refine ⟨by omega, ?_⟩
    have hmax : knapCell ts (i + 1) j =
        max (knapCell ts i j) (ts.getD i 0 + knapCell ts i (j - ts.getD i 0)) := by
      simp only [knapCell]
      rw [if_neg hgt]
    rcases max_choice (knapCell ts i j)
        (ts.getD i 0 + knapCell ts i (j - ts.getD i 0)) with hc | hc
    · exact absurd (hmax.trans hc) h
    · exact hmax.trans hc

/-- The thread-sum of the reconstructed subset equals the table optimum. -/
theorem knapWalk_sum (ts : List Nat) :
    ∀ i j, ((knapWalk ts i j).map (fun x => ts.getD x 0)).sum = knapCell ts i j := by
  intro i
  induction i with
  | zero => intro j; simp [knapWalk, knapCell]
  | succ i ih =>
    intro j
    simp only [knapWalk]
    split
    · next hne =>
      obtain ⟨hle, heq⟩ := knapCell_of_ne ts i j hne
      simp only [List.map_cons, List.sum_cons, ih]
      omega
    · next hne =>
      have heq : knapCell ts (i + 1) j = knapCell ts i j := by
        by_contra hc
        exact hne hc
      rw [ih, heq]

/-- Any subset of the first `i` candidates whose thread-sum fits capacity `j`
is dominated by the table cell `(i, j)`. -/
theorem knapCell_ge_subset (ts : List Nat) :
    ∀ i j (T : Finset Nat), T ⊆ Finset.range i →
      (∑ k ∈ T, ts.getD k 0) ≤ j → (∑ k ∈ T, ts.getD k 0) ≤ knapCell ts i j := by
  intro i
  induction i with
  | zero =>
    intro j T hT _
    have : T = ∅ := Finset.subset_empty.mp (by simpa using hT)
    simp [this, knapCell]
  | succ i ih =>
    intro j T hT hle
    by_cases hi : i ∈ T
    · have hsplit : (∑ k ∈ T, ts.getD k 0) =
          ts.getD i 0 + ∑ k ∈ T.erase i, ts.getD k 0 :=
        (Finset.add_sum_erase T _ hi).symm
      have hsub : T.erase i ⊆ Finset.range i := by
        intro x hx
        have hx1 : x ≠ i := (Finset.mem_erase.mp hx).1
        have hx2 : x < i + 1 :=
          Finset.mem_range.mp (hT (Finset.mem_erase.mp hx).2)
        exact Finset.mem_range.mpr (by omega)
      have hle' : (∑ k ∈ T.erase i, ts.getD k 0) ≤ j - ts.getD i 0 := by omega
      have hrec := ih (j - ts.getD i 0) (T.erase i) hsub hle'
      have hnotgt : ¬ ts.getD i 0 > j := by omega
      calc (∑ k ∈ T, ts.getD k 0)
          ≤ ts.getD i 0 + knapCell ts i (j - ts.getD i 0) := by omega
        _ ≤ knapCell ts (i + 1) j := by
            simp only [knapCell]
            rw [if_neg hnotgt]
            exact le_max_right _ _
    · have hsub : T ⊆ Finset.range i := by
        intro x hx
        have hx2 : x < i + 1 := Finset.mem_range.mp (hT hx)
        have hx1 : x ≠ i := fun h => hi (h ▸ hx)
        exact Finset.mem_range.mpr (by omega)
      exact le_trans (ih j T hsub hle) (knapCell_mono ts i j)

/-! ## Claim theorems about the selectors -/

/-- C1: for every candidate thread list and every budget, the subset chosen
by `_thread_based_selector` has total thread requirement at most the budget,
and no subset of the candidates whose total fits the budget has a larger
total. -/
theorem thread_selector_optimal (ts : List Nat) (budget : Nat) :
    ((threadBasedSelector ts budget).map (fun x => ts.getD x 0)).sum ≤ budget ∧
    ∀ T : Finset Nat, T ⊆ Finset.range ts.length →
      (∑ k ∈ T, ts.getD k 0) ≤ budget →
      (∑ k ∈ T, ts.getD k 0) ≤
        ((threadBasedSelector ts budget).map (fun x => ts.getD x 0)).sum := by
  have hsum := knapWalk_sum ts ts.length budget
  constructor
  · rw [threadBasedSelector, hsum]
    exact knapCell_le ts ts.length budget
  · intro T hT hle
    rw [threadBasedSelector, hsum]
    exact knapCell_ge_subset ts ts.length budget T hT hle

/-- Witness for C1 at the spec's own scenario (threads 2, 2, 3, budget 4). -/
theorem thread_selector_optimal_witness :
    ((threadBasedSelector [2, 2, 3] 4).map (fun x => [2, 2, 3].getD x 0)).sum ≤ 4 ∧
    (∑ k ∈ ({0, 1} : Finset Nat), [2, 2, 3].getD k 0) ≤
      ((threadBasedSelector [2, 2, 3] 4).map (fun x => [2, 2, 3].getD x 0)).sum :=
  ⟨(thread_selector_optimal [2, 2, 3] 4).1,
   (thread_selector_optimal [2, 2, 3] 4).2 {0, 1} (by decide) (by decide)⟩

/-- The foldl formulation of the backward walk agrees with the recursive
embedding of the reconstruction loop. -/
theorem specBacktrack_foldl (ts : List Nat) :
    ∀ i j acc,
      (((List.range i).reverse.foldl
        (fun (st : Nat × List Nat) x =>
          if knapCell ts (x + 1) st.1 ≠ knapCell ts x st.1
          then (st.1 - ts.getD x 0, st.2 ++ [x])
          else st)
        (j, acc)).2) = acc ++ knapWalk ts i j := by
  intro i
  induction i with
  | zero => intro j acc; simp [knapWalk]
  | succ i ih =>
    intro j acc
    rw [List.range_succ, List.reverse_append]
    simp only [List.reverse_singleton, List.singleton_append, List.foldl_cons]
    by_cases hne : knapCell ts (i + 1) j ≠ knapCell ts i j
    · rw [if_pos hne, ih (j - ts.getD i 0) (acc ++ [i])]
      simp only [knapWalk]
      rw [if_pos hne, List.append_assoc, List.singleton_append]
    · rw [if_neg hne, ih j acc]
      simp only [knapWalk]
      rw [if_neg hne]

/-- C8: the subset returned by `_thread_based_selector` is exactly the one
produced by the spec's backward reconstruction walk from cell `(n, budget)`
(include candidate `i` at capacity `j` iff `cell(i, j) ≠ cell(i-1, j)`,
then reduce `j` by its requirement), and its total equals the table optimum
`cell(n, budget)`; the candidate order hence fixes the chosen subset. -/
theorem knapsack_backtrack_spec (ts : List Nat) (budget : Nat) :
    threadBasedSelector ts budget = specBacktrack ts budget ∧
    ((threadBasedSelector ts budget).map (fun x => ts.getD x 0)).sum =
      knapCell ts ts.length budget := by
  constructor
  · rw [specBacktrack, specBacktrack_foldl ts ts.length budget []]
    simp [threadBasedSelector]
  · exact knapWalk_sum ts ts.length budget

/-- Capacity zero makes every walk empty. -/
theorem knapWalk_zero (ts : List Nat) : ∀ i, knapWalk ts i 0 = [] := by
  intro i
  induction i with
  | zero => rfl
  | succ i ih =>
    simp only [knapWalk]
    rw [if_neg, ih]
    rw [knapCell_zero, knapCell_zero]
    simp

/-- C9: with an empty candidate list or a zero budget the knapsack selector
selects nothing. -/
theorem selector_empty_or_zero_budget :
    (∀ budget, threadBasedSelector [] budget = []) ∧
    (∀ ts : List Nat, threadBasedSelector ts 0 = []) := by
  constructor
  · intro budget
    rfl
  · intro ts
    exact knapWalk_zero ts ts.length

/-! ## Fallback selector claims -/

/-- C3 counterexample: on a single ready job requiring 3 threads with one
core available, `_selector` returns the job (Python slicing keeps the first
`_cores` jobs by count), while the longest thread-sum-bounded initial
segment demanded by the claim is empty. -/
theorem fallback_selector_counterexample :
    fallbackSelector [⟨0, 0, 3, true⟩] 1 = [⟨0, 0, 3, true⟩] ∧
    specOrderedTake [⟨0, 0, 3, true⟩] 1 = [] ∧
    fallbackSelector [⟨0, 0, 3, true⟩] 1 ≠ specOrderedTake [⟨0, 0, 3, true⟩] 1 :=
  ⟨by decide, by decide, by decide⟩

/-- C3 amended: for a nonnegative available count `c`, the fallback selector
returns the first `c` jobs of the list in listed order — a prefix of length
`min c n` chosen by job count, irrespective of the jobs' thread
requirements. -/
theorem fallback_selector_slice (jobs : List Job) (c : Int) (h : 0 ≤ c) :
    fallbackSelector jobs c = jobs.take c.toNat ∧
    (fallbackSelector jobs c).length = min c.toNat jobs.length := by
  constructor
  · simp [fallbackSelector, pySlice, h]
  · simp [fallbackSelector, pySlice, h, List.length_take]

/-- Witness for the amended C3: two jobs of 3 and 1 threads, one core: the
3-thread job alone is selected. -/
theorem fallback_selector_slice_witness :
    fallbackSelector [⟨0, 0, 3, true⟩, ⟨1, 0, 1, true⟩] 1 = [⟨0, 0, 3, true⟩] ∧
    (fallbackSelector [⟨0, 0, 3, true⟩, ⟨1, 0, 1, true⟩] 1).length = 1 := by
  have h := fallback_selector_slice [⟨0, 0, 3, true⟩, ⟨1, 0, 1, true⟩] 1 (by decide)
  exact ⟨h.1.trans (by decide), h.2.trans (by decide)⟩

/-- C10: with zero remaining cores the fallback selector selects nothing,
but with negative remaining cores `-k` applied to more than `k` jobs it
selects the first `n - k` jobs — a non-empty selection despite exhausted
capacity. -/
theorem fallback_zero_and_negative (jobs : List Job) (k : Nat) :
    fallbackSelector jobs 0 = [] ∧
    (0 < k → k < jobs.length →
      fallbackSelector jobs (-(k : Int)) = jobs.take (jobs.length - k) ∧
      fallbackSelector jobs (-(k : Int)) ≠ []) := by
  constructor
  · simp [fallbackSelector, pySlice]
  · intro hk hlen
    have hneg : ¬ (0 : Int) ≤ -(k : Int) := by omega
    have heq : fallbackSelector jobs (-(k : Int)) = jobs.take (jobs.length - k) := by
      simp [fallbackSelector, pySlice, hneg]
    refine ⟨heq, ?_⟩
    rw [heq]
    intro hnil
    have hlt := congrArg List.length hnil
    rw [List.length_take] at hlt
    simp at hlt
    omega

/-- Witness for C10: two jobs, remaining cores `-1`: the first job is
selected although no capacity remains. -/
theorem fallback_zero_and_negative_witness :
    fallbackSelector [⟨0, 0, 1, true⟩, ⟨1, 0, 2, true⟩] 0 = [] ∧
    fallbackSelector [⟨0, 0, 1, true⟩, ⟨1, 0, 2, true⟩] (-((1 : Nat) : Int)) =
      [⟨0, 0, 1, true⟩] ∧
    fallbackSelector [⟨0, 0, 1, true⟩, ⟨1, 0, 2, true⟩] (-((1 : Nat) : Int)) ≠ [] := by
  have h := (fallback_zero_and_negative [⟨0, 0, 1, true⟩, ⟨1, 0, 2, true⟩] 1).2
    (by decide) (by decide)
  exact ⟨(fallback_zero_and_negative [⟨0, 0, 1, true⟩, ⟨1, 0, 2, true⟩] 1).1,
    h.1.trans (by decide), h.2⟩

/-! ## Loop-iteration claims -/

/-- `clampJob` never changes the `needrun` flag. -/
theorem clampJob_needrun (m : Nat) (j : Job) :
    (clampJob m j).needrun = j.needrun := by
  unfold clampJob
  split <;> rfl

/-- C4: in an iteration begun with the error flag clear, every ready job
with `needrun` set whose requirement exceeds `maxcores` is kept as a
dispatch candidate with its requirement clamped to exactly `maxcores`, a
warning is counted unless dry-run mode is active (and none in dry-run), and
the iteration proceeds to selection rather than returning. -/
theorem clamp_policy (s : SchedState) (j : Job) (hj : j ∈ s.ready)
    (hn : j.needrun = true) (ht : j.threads > s.maxcores) :
    clampJob s.maxcores j ∈ needrunCandidates s ∧
    (clampJob s.maxcores j).threads = s.maxcores ∧
    (s.dryrun = false → 0 < clampWarnings s) ∧
    (s.dryrun = true → clampWarnings s = 0) ∧
    (s.errors = false → (loopIter s).result = none) := by
  have hmem : clampJob s.maxcores j ∈ needrunCandidates s := by
    unfold needrunCandidates
    exact List.mem_map_of_mem _ (List.mem_filter.mpr ⟨hj, hn⟩)
  refine ⟨hmem, ?_, ?_, ?_, ?_⟩
  · unfold clampJob
    rw [if_pos ht]
  · intro hd
    unfold clampWarnings
    rw [if_neg (by simp [hd])]
    have : j ∈ s.ready.filter (fun j => j.needrun && decide (j.threads > s.maxcores)) :=
      List.mem_filter.mpr ⟨hj, by simp [hn, ht]⟩
    exact List.length_pos.mpr (fun hnil => by simp [hnil] at this)
  · intro hd
    unfold clampWarnings
    rw [if_pos hd]
  · intro he
    have hne : ¬ (needrunCandidates s).isEmpty := by
      intro hempty
      rw [List.isEmpty_iff] at hempty
      rw [hempty] at hmem
      exact (List.not_mem_nil _) hmem
    simp only [loopIter]
    rw [if_neg (by simp [he]), if_neg hne]

/-- Witness for C4: one ready needed job asking for 10 threads with
`maxcores = 4`. -/
theorem clamp_policy_witness :
    clampJob 4 ⟨0, 0, 10, true⟩ ∈
      needrunCandidates (initState 4 false true [⟨0, 0, 10, true⟩]) ∧
    (clampJob 4 ⟨0, 0, 10, true⟩).threads = 4 ∧
    0 < clampWarnings (initState 4 false true [⟨0, 0, 10, true⟩]) ∧
    (loopIter (initState 4 false true [⟨0, 0, 10, true⟩])).result = none := by
  have h := clamp_policy (initState 4 false true [⟨0, 0, 10, true⟩]) ⟨0, 0, 10, true⟩
    (by decide) (by decide) (by decide)
  exact ⟨h.1, h.2.1, h.2.2.1 (by decide), h.2.2.2.2 (by decide)⟩

/-- C5: the error flag never reverts to false along any transition, and an
iteration begun with the flag set dispatches no job, requests backend
shutdown, and makes `schedule` return `False`. -/
theorem error_flag_monotone_no_dispatch :
    (∀ s t : SchedState, Step s t → s.errors = true → t.errors = true) ∧
    (∀ s : SchedState, s.errors = true →
      (loopIter s).dispatched = [] ∧ (loopIter s).shutdownRequested = true ∧
      (loopIter s).result = some false) := by
  constructor
  · intro s t hst he
    cases hst with
    | loop hw hres => simp [loopIter, he] at hres
    | finish j hj => simpa [finishJob] using he
    | error => rfl
    | graph r => simpa using he
  · intro s he
    refine ⟨?_, ?_, ?_⟩ <;> simp [loopIter, he]

/-- Witness for C5: an error callback on a fresh scheduler; a subsequent
graph update keeps the flag, and the next iteration returns `False` without
dispatching. -/
theorem error_flag_monotone_no_dispatch_witness :
    ({ errorCallback overcommitInit with ready := [] } : SchedState).errors = true ∧
    (loopIter (errorCallback overcommitInit)).dispatched = [] ∧
    (loopIter (errorCallback overcommitInit)).shutdownRequested = true ∧
    (loopIter (errorCallback overcommitInit)).result = some false := by
  refine ⟨error_flag_monotone_no_dispatch.1 (errorCallback overcommitInit) _
    (Step.graph []) (by decide), ?_, ?_, ?_⟩
  · exact (error_flag_monotone_no_dispatch.2 (errorCallback overcommitInit) (by decide)).1
  · exact (error_flag_monotone_no_dispatch.2 (errorCallback overcommitInit) (by decide)).2.1
  · exact (error_flag_monotone_no_dispatch.2 (errorCallback overcommitInit) (by decide)).2.2

/-- C6: an iteration begun with the error flag clear and no ready job whose
`needrun` flag is set requests backend shutdown and makes `schedule` return
`True`. -/
theorem no_needed_work_returns_true (s : SchedState) (he : s.errors = false)
    (hr : ∀ j ∈ s.ready, j.needrun = false) :
    (loopIter s).shutdownRequested = true ∧ (loopIter s).result = some true := by
  have hfilter : s.ready.filter (fun j => j.needrun) = [] := by
    rw [List.filter_eq_nil_iff]
    intro j hj
    simp [hr j hj]
  constructor <;>
    simp [loopIter, he, needrunCandidates, hfilter]

/-- Witness for C6: a fresh scheduler whose only ready job does not need to
run. -/
theorem no_needed_work_returns_true_witness :
    (loopIter (initState 3 false true [⟨0, 0, 2, false⟩])).shutdownRequested = true ∧
    (loopIter (initState 3 false true [⟨0, 0, 2, false⟩])).result = some true :=
  no_needed_work_returns_true _ (by decide) (by decide)

/-- C7: one invocation of `_finished` for a job increments the finished
counter by exactly one, returns the job's thread requirement to the budget
exactly when the job's `needrun` flag is set (and leaves the budget
untouched otherwise), notifies the dag of the completion, removes the job
from the running set, and sets the wake event. -/
theorem finished_callback_effects (s : SchedState) (j : Job) :
    (finishJob s j).finished_jobs = s.finished_jobs + 1 ∧
    (j.needrun = true → (finishJob s j).cores = s.cores + (j.threads : Int)) ∧
    (j.needrun = false → (finishJob s j).cores = s.cores) ∧
    (finishJob s j).dagFinished = s.dagFinished ++ [j.id] ∧
    (finishJob s j).running = s.running.erase j ∧
    (finishJob s j).wake = true := by
  refine ⟨rfl, ?_, ?_, rfl, rfl, rfl⟩
  · intro h
    simp [finishJob, h]
  · intro h
    simp [finishJob, h]

/-- Witness for C7 at concrete jobs with and without `needrun`. -/
theorem finished_callback_effects_witness :
    (finishJob overcommitState ⟨0, 0, 2, true⟩).finished_jobs =
      overcommitState.finished_jobs + 1 ∧
    (finishJob overcommitState ⟨0, 0, 2, true⟩).cores =
      overcommitState.cores + ((2 : Nat) : Int) ∧
    (finishJob overcommitState ⟨9, 0, 5, false⟩).cores = overcommitState.cores ∧
    (finishJob overcommitState ⟨0, 0, 2, true⟩).wake = true := by
  refine ⟨(finished_callback_effects overcommitState ⟨0, 0, 2, true⟩).1,
    (finished_callback_effects overcommitState ⟨0, 0, 2, true⟩).2.1 (by decide),
    (finished_callback_effects overcommitState ⟨9, 0, 5, false⟩).2.2.1 (by decide),
    (finished_callback_effects overcommitState ⟨0, 0, 2, true⟩).2.2.2.2.2⟩

/-! ## Budget invariant -/

/-- Indexing the mapped thread list agrees with indexing the job list
(the defaults line up because `dummyJob` requires 0 threads). -/
theorem getD_map_threads :
    ∀ (l : List Job) (i : Nat),
      (l.map (fun j => j.threads)).getD i 0 = (l.getD i dummyJob).threads := by
  intro l
  induction l with
  | nil => intro i; rfl
  | cons a tl ih =>
    intro i
    cases i with
    | zero => rfl
    | succ i => exact ih i

/-- In-bounds `getD` produces a member of the list. -/
theorem getD_mem_of_lt :
    ∀ (l : List Job) (i : Nat), i < l.length → l.getD i dummyJob ∈ l := by
  intro l
  induction l with
  | nil => intro i h; simp at h
  | cons a tl ih =>
    intro i h
    cases i with
    | zero => exact List.mem_cons_self a tl
    | succ i => exact List.mem_cons_of_mem a (ih i (by simpa using h))

/-- Everything the selector picks comes from the candidate list. -/
theorem runSelection_subset (s : SchedState) (cands : List Job) :
    ∀ x ∈ runSelection s cands, x ∈ cands := by
  intro x hx
  unfold runSelection at hx
  split at hx
  · rw [threadBasedSelector] at hx
    rcases List.mem_map.mp hx with ⟨i, hi, rfl⟩
    have hlt : i < cands.length := by
      have := knapWalk_lt (cands.map (fun j => j.threads))
        (cands.map (fun j => j.threads)).length s.cores.toNat i hi
      simpa using this
    exact getD_mem_of_lt cands i hlt
  · unfold fallbackSelector pySlice at hx
    split at hx
    · exact List.take_subset _ _ hx
    · exact List.take_subset _ _ hx

/-- Every candidate built from the ready list needs to run. -/
theorem needrunCandidates_needrun (s : SchedState) :
    ∀ j ∈ needrunCandidates s, j.needrun = true := by
  intro j hj
  unfold needrunCandidates at hj
  rcases List.mem_map.mp hj with ⟨x, hx, rfl⟩
  rw [clampJob_needrun]
  exact (List.mem_filter.mp hx).2

/-- On a list of jobs that all need to run, the refundable sum is the full
thread-sum. -/
theorem needrunSum_eq_totalThreads :
    ∀ l : List Job, (∀ j ∈ l, j.needrun = true) → needrunSum l = totalThreads l := by
  intro l
  induction l with
  | nil => intro _; rfl
  | cons a tl ih =>
    intro h
    have ha : a.needrun = true := h a (List.mem_cons_self a tl)
    have htl := ih (fun j hj => h j (List.mem_cons_of_mem a hj))
    simp only [needrunSum, totalThreads, List.map_cons, List.sum_cons] at htl ⊢
    rw [ha, htl]
    simp

/-- The refundable sum splits over concatenation. -/
theorem needrunSum_append (a b : List Job) :
    needrunSum (a ++ b) = needrunSum a + needrunSum b := by
  simp [needrunSum]

/-- Erasing a member removes exactly its contribution from a mapped sum. -/
theorem sum_map_erase (f : Job → Nat) :
    ∀ (l : List Job) (j : Job), j ∈ l →
      ((l.erase j).map f).sum + f j = (l.map f).sum := by
  intro l
  induction l with
  | nil => intro j h; simp at h
  | cons a tl ih =>
    intro j hmem
    by_cases haj : a = j
    · subst haj
      rw [List.erase_cons_head]
      simp [Nat.add_comm]
    · have hj : j ∈ tl := by
        rcases List.mem_cons.mp hmem with h | h
        · exact absurd h.symm haj
        · exact h
      rw [List.erase_cons_tail]
      · simp only [List.map_cons, List.sum_cons]
        rw [Nat.add_assoc, ih j hj]
      · simp [haj]

/-- In knapsack mode the selection never asks for more threads than the
available budget. -/
theorem runSelection_total_le (s : SchedState) (cands : List Job)
    (h : s.useKnapsack = true) :
    totalThreads (runSelection s cands) ≤ s.cores.toNat := by
  unfold runSelection
  rw [if_pos h]
  unfold totalThreads
  rw [List.map_map]
  have hmaps : ∀ sel : List Nat,
      (sel.map ((fun j => j.threads) ∘ fun i => cands.getD i dummyJob)).sum =
      (sel.map (fun x => (cands.map (fun j => j.threads)).getD x 0)).sum := by
    intro sel
    congr 1
    apply List.map_congr_left
    intro x _
    simp only [Function.comp]
    exact (getD_map_threads cands x).symm
  rw [hmaps]
  rw [threadBasedSelector,
    knapWalk_sum (cands.map (fun j => j.threads)) _ s.cores.toNat]
  exact knapCell_le _ _ _

/-- A fresh scheduler satisfies the inductive invariant. -/
theorem schedInv_init (maxcores : Nat) (dryrun useKnapsack : Bool)
    (ready : List Job) : SchedInv (initState maxcores dryrun useKnapsack ready) := by
  refine ⟨by simp [initState, needrunSum], ?_, ?_⟩
  · intro j hj
    simp [initState] at hj
  · intro _
    simp [initState]

/-- Every transition preserves the inductive invariant. -/
theorem schedInv_step (s t : SchedState) (hst : Step s t) (hInv : SchedInv s) :
    SchedInv t := by
  obtain ⟨hacc, hrun, hpos⟩ := hInv
  cases hst with
  | graph r => exact ⟨hacc, hrun, hpos⟩
  | error => exact ⟨hacc, hrun, hpos⟩
  | finish j hj =>
    have h7 : needrunSum (s.running.erase j) + (if j.needrun then j.threads else 0)
        = needrunSum s.running :=
      sum_map_erase (fun x => if x.needrun then x.threads else 0) s.running j hj
    refine ⟨?_, ?_, ?_⟩
    · show s.cores + (if j.needrun then (j.threads : Int) else 0)
          = (s.maxcores : Int) - (needrunSum (s.running.erase j) : Int)
      cases hb : j.needrun <;> simp [hb] at h7 ⊢ <;> omega
    · intro x hx
      exact hrun x (List.mem_of_mem_erase hx)
    · intro hk
      show 0 ≤ s.cores + (if j.needrun then (j.threads : Int) else 0)
      have h0 := hpos hk
      cases hb : j.needrun <;> simp [hb] <;> omega
  | loop hw hres =>
    cases he : s.errors with
    | true => simp [loopIter, he] at hres
    | false =>
      by_cases hc : needrunCandidates s = []
      · exfalso
        simp [loopIter, he, hc] at hres
      · have hnext : (loopIter s).next = { s with
            wake := false,
            cores := s.cores -
              (totalThreads (runSelection s (needrunCandidates s)) : Int),
            running := s.running ++ runSelection s (needrunCandidates s),
            ready := s.ready.map
              (fun j => if j.needrun then clampJob s.maxcores j else j) } := by
          simp [loopIter, he, hc]
        rw [hnext]
        have hmemrun : ∀ x ∈ runSelection s (needrunCandidates s), x.needrun = true :=
          fun x hx => needrunCandidates_needrun s x (runSelection_subset s _ x hx)
        have hsum : needrunSum (runSelection s (needrunCandidates s)) =
            totalThreads (runSelection s (needrunCandidates s)) :=
          needrunSum_eq_totalThreads _ hmemrun
        refine ⟨?_, ?_, ?_⟩
        · show s.cores - (totalThreads (runSelection s (needrunCandidates s)) : Int)
              = (s.maxcores : Int) -
                (needrunSum (s.running ++ runSelection s (needrunCandidates s)) : Int)
          rw [needrunSum_append, hsum]
          omega
        · intro x hx
          rcases List.mem_append.mp hx with h | h
          · exact hrun x h
          · exact hmemrun x h
        · intro hk
          show 0 ≤ s.cores -
              (totalThreads (runSelection s (needrunCandidates s)) : Int)
          have hle := runSelection_total_le s (needrunCandidates s) hk
          have h0 := hpos hk
          omega

/-- Every reachable state satisfies the inductive invariant. -/
theorem schedInv_reach (s : SchedState) (h : Reach s) : SchedInv s := by
  induction h with
  | init maxcores dryrun useKnapsack ready =>
    exact schedInv_init maxcores dryrun useKnapsack ready
  | step hr hst ih => exact schedInv_step _ _ hst ih

/-- C2 counterexample: with a fallback-mode scheduler (`maxcores = 2`, two
ready jobs of 2 threads each) a single dispatch iteration reaches a state
whose remaining-core counter is `-2 < 0` and whose dispatched-but-
uncompleted jobs require 4 > 2 threads in total. -/
theorem cores_invariant_counterexample :
    Reach overcommitState ∧ overcommitState.cores = -2 ∧
    overcommitState.maxcores < totalThreads overcommitState.running := by
  refine ⟨?_, by decide, by decide⟩
  exact Reach.step (Reach.init 2 false false [⟨0, 0, 2, true⟩, ⟨1, 1, 2, true⟩])
    (Step.loop (by decide) (by decide))

/-- C2 amended: in every reachable state `remaining ≤ maxcores`, and when
the CPU executor (knapsack selector) is in use also `0 ≤ remaining` and the
dispatched-but-uncompleted jobs require at most `maxcores` threads (with the
fallback selector the counter can go negative); dispatch decrements the
counter by the dispatched subset's total requirement and each completion of
a needed job increments it by that job's requirement. -/
theorem cores_invariant_amended :
    (∀ s : SchedState, Reach s →
      s.cores ≤ (s.maxcores : Int) ∧
      (s.useKnapsack = true →
        0 ≤ s.cores ∧ totalThreads s.running ≤ s.maxcores)) ∧
    (∀ s : SchedState, (loopIter s).result = none →
      (loopIter s).next.cores =
        s.cores - (totalThreads (loopIter s).dispatched : Int)) ∧
    (∀ (s : SchedState) (j : Job), j.needrun = true →
      (finishJob s j).cores = s.cores + (j.threads : Int)) := by
  refine ⟨?_, ?_, ?_⟩
  · intro s hs
    obtain ⟨hacc, hrun, hpos⟩ := schedInv_reach s hs
    have htot : needrunSum s.running = totalThreads s.running :=
      needrunSum_eq_totalThreads s.running hrun
    constructor
    · omega
    · intro hk
      have h0 := hpos hk
      omega
  · intro s hres
    cases he : s.errors with
    | true => simp [loopIter, he] at hres
    | false =>
      by_cases hc : needrunCandidates s = []
      · simp [loopIter, he, hc] at hres
      · simp [loopIter, he, hc]
  · intro s j h
    simp [finishJob, h]

/-- Witness for the amended C2: a fresh knapsack-mode scheduler satisfies
the bounds; the overcommitting dispatch and a completion obey the
decrement/increment laws. -/
theorem cores_invariant_amended_witness :
    ((initState 2 false true []).cores ≤ ((initState 2 false true []).maxcores : Int) ∧
      0 ≤ (initState 2 false true []).cores ∧
      totalThreads (initState 2 false true []).running ≤
        (initState 2 false true []).maxcores) ∧
    (loopIter overcommitInit).next.cores =
      overcommitInit.cores - (totalThreads (loopIter overcommitInit).dispatched : Int) ∧
    (finishJob overcommitState ⟨0, 0, 2, true⟩).cores =
      overcommitState.cores + ((2 : Nat) : Int) := by
  refine ⟨⟨?_, ?_, ?_⟩, ?_, ?_⟩
  · exact (cores_invariant_amended.1 _ (Reach.init 2 false true [])).1
  · exact ((cores_invariant_amended.1 _ (Reach.init 2 false true [])).2 (by decide)).1
  · exact ((cores_invariant_amended.1 _ (Reach.init 2 false true [])).2 (by decide)).2
  · exact cores_invariant_amended.2.1 overcommitInit (by decide)
  · exact cores_invariant_amended.2.2 overcommitState ⟨0, 0, 2, true⟩ (by decide)
